import Mathlib

set_option autoImplicit false

/-!
Verification development for the jsrepo block-graph builder and dependency
resolver (`src/packages/cli/src/utils/build/index.ts` and
`src/packages/cli/src/utils/blocks.ts`), shallowly embedded in Lean.

External collaborators (language resolvers, registry providers, the
filesystem) are passed in as explicit data or function parameters, matching
the interface boundary of the spec.  Filesystem trees are embedded as an
inductive tree; JavaScript `Map`s and `Set`s are embedded as insertion-ordered
association lists / duplicate-free lists, which is exactly the iteration
semantics the source relies on.
-/

namespace Jsrepo

/-- The `category/name` specifier string identifying a block. -/
def specOf (category name : String) : String :=
  category ++ "/" ++ name

/-- JS `Map.get`: first (and only) binding for a key in an insertion-ordered
association list. -/
def alGet {α : Type} (k : String) : List (String × α) → Option α
  | [] => none
  | (k', v) :: rest => if k' = k then some v else alGet k rest

/-- JS `Map.has`. -/
def alHas {α : Type} (k : String) (m : List (String × α)) : Bool :=
  (alGet k m).isSome

/-- JS `Map.set`: update in place if the key is present (keeping its
insertion position), otherwise append. -/
def alSet {α : Type} (k : String) (v : α) : List (String × α) → List (String × α)
  | [] => [(k, v)]
  | (k', v') :: rest => if k' = k then (k', v) :: rest else (k', v') :: alSet k v rest

/-- JS `Set.add` on an insertion-ordered duplicate-free list. -/
def addUniq (x : String) (l : List String) : List String :=
  if l.contains x then l else l ++ [x]

/-- `pathe`'s `path.join` restricted to the shapes used by the embedded code:
plain segments joined with a slash (no normalization is exercised). -/
def pathJoin (a b : String) : String :=
  if a = "" then b else if b = "" then a else a ++ "/" ++ b

/-- String suffix test (the semantics of `String.endsWith`, implemented over
the character list). -/
def strEndsWith (s suffix : String) : Bool :=
  s.data.drop (s.data.length - suffix.data.length) == suffix.data

/-- `path.relative(base, p)` restricted to the shapes used by the embedded
code: `p` is `base` extended by further segments, so the relative path is
`p` with the `base ++ "/"` prefix removed. -/
def pathRelative (base p : String) : String :=
  if base = "" then p
  else if p.data.take (base.data.length + 1) == base.data ++ ['/'] then
    ⟨p.data.drop (base.data.length + 1)⟩
  else p

/-- `path.basename`: the part after the last slash. -/
def basename (p : String) : String :=
  ⟨p.data.foldl (fun acc c => if c = '/' then [] else acc ++ [c]) []⟩

/-- Index of the last `'.'` occurring at a position `> 0`, mirroring how
Node's `path.parse` finds the extension (a lone leading dot is not an
extension separator). -/
def lastDotIdx : List Char → Nat → Option Nat
  | [], _ => none
  | c :: rest, i =>
    match lastDotIdx rest (i + 1) with
    | some j => some j
    | none => if c = '.' && i > 0 then some i else none

/-- `transformBlockName` from `build/index.ts`: `path.parse(path.basename(file)).name`,
i.e. the basename with its final extension removed. -/
def transformBlockName (file : String) : String :=
  let base := basename file
  match lastDotIdx base.toList 0 with
  | none => base
  | some i => ⟨base.toList.take i⟩

/-- The recognized registry configuration fields consumed by the builder
(`RegistryConfig` from `utils/config.ts`, restricted to the fields the
embedded code reads; the field list matches `schemas/registry-config.json`). -/
structure RegistryConfig where
  includeBlocks : List String
  excludeBlocks : List String
  listBlocks : List String
  doNotListBlocks : List String
  includeCategories : List String
  excludeCategories : List String
  listCategories : List String
  doNotListCategories : List String
  excludeDeps : List String
  dirs : List String
  allowSubdirectories : Bool
deriving DecidableEq

/-- `Block` from `types.ts` (field `_imports_` is embedded as `imports`). -/
structure Block where
  name : String
  directory : String
  category : String
  tests : Bool
  subdirectory : Bool
  list : Bool
  files : List String
  localDependencies : List String
  dependencies : List String
  devDependencies : List String
  imports : List (String × String)
deriving DecidableEq

/-- `Category` from `types.ts`. -/
structure Category where
  name : String
  blocks : List Block
deriving DecidableEq

/-- A filesystem tree: the external collaborator behind `fs.readdirSync` /
`fs.statSync`. -/
inductive FsEntry where
  | file (name : String)
  | dir (name : String) (children : List FsEntry)

def FsEntry.name : FsEntry → String
  | .file n => n
  | .dir n _ => n

def FsEntry.isDir : FsEntry → Bool
  | .file _ => false
  | .dir _ _ => true

def TEST_SUFFIXES : List String :=
  [".test.ts", "_test.ts", ".test.js", "_test.js"]

/-- `isTestFile` from `build/index.ts`. -/
def isTestFile (file : String) : Bool :=
  (TEST_SUFFIXES.find? (fun suffix => strEndsWith file suffix)).isSome

/-- `shouldListBlock` from `build/index.ts`. -/
def shouldListBlock (name : String) (config : RegistryConfig) : Bool :=
  if config.doNotListBlocks.length > 0 && config.doNotListBlocks.contains name then false
  else if config.listBlocks.length > 0 then config.listBlocks.contains name
  else true

/-- `shouldIncludeBlock` from `build/index.ts`. -/
def shouldIncludeBlock (name : String) (config : RegistryConfig) : Bool :=
  if config.excludeBlocks.length > 0 && config.excludeBlocks.contains name then false
  else if config.includeBlocks.length > 0 then config.includeBlocks.contains name
  else true

/-- `shouldListCategory` from `build/index.ts`. -/
def shouldListCategory (name : String) (config : RegistryConfig) : Bool :=
  if config.doNotListCategories.length > 0 && config.doNotListCategories.contains name then false
  else if config.listCategories.length > 0 then config.listCategories.contains name
  else true

/-- `shouldIncludeCategory` from `build/index.ts`. -/
def shouldIncludeCategory (name : String) (config : RegistryConfig) : Bool :=
  if config.excludeCategories.length > 0 && config.excludeCategories.contains name then false
  else if config.includeCategories.length > 0 then config.includeCategories.contains name
  else true

/-- Successful result of a language resolver's `resolveDependencies`
(`localDeps` embeds the source field `local`, a Lean keyword). -/
structure DepResult where
  dependencies : List String
  devDependencies : List String
  localDeps : List String
  imports : List (String × String)

/-- The external Language Resolver collaborator: `matches` says whether some
resolver in `languages` matches the file name, and `resolve filePath isSubDir`
is the first matching resolver's (successful) `resolveDependencies` output.
Resolver failure aborts the whole build via `program.error`, so only
successful runs are embedded. -/
structure LangModel where
  «matches» : String → Bool
  resolve : String → Bool → DepResult

/-- The two non-fatal warnings the builder can emit (`console.warn` sites). -/
inductive BuildWarning where
  | unsupportedFile (path : String)
  | subdirectoryDisallowed (path : String)
deriving DecidableEq

/-- The mutable state captured by `walkFiles`'s closure in
`buildBlocksDirectory`'s subdirectory branch, plus the warning side channel. -/
structure WalkSt where
  localDepsSet : List String
  depsSet : List String
  devDepsSet : List String
  imports : List (String × String)
  hasTests : Bool
  blockFiles : List String
  warnings : List BuildWarning
deriving DecidableEq

def emptyWalkSt : WalkSt :=
  { localDepsSet := [], depsSet := [], devDepsSet := [], imports := []
    hasTests := false, blockFiles := [], warnings := [] }

/-- The block-relevant part of the walk state (everything except the warning
side channel, which never changes the graph shape). -/
def WalkSt.core (st : WalkSt) :
    List String × List String × List String × List (String × String) × Bool × List String :=
  (st.localDepsSet, st.depsSet, st.devDepsSet, st.imports, st.hasTests, st.blockFiles)

/-- `walkFiles` from `buildBlocksDirectory`'s subdirectory branch.  The
closure parameters `cwd`, `categoryName`, `blockName`, `blockDir` are
constant through the recursion; `base` is the directory whose `entries` are
being walked; `st` is the captured mutable state.  The source checks
`isTestFile` before `statSync`, so a test-suffixed *directory* is recorded
as a test file and never recursed into — the embedding keeps that order. -/
def walkFiles (lang : LangModel) (config : RegistryConfig)
    (cwd categoryName blockName blockDir : String) :
    String → List FsEntry → WalkSt → WalkSt
  | _, [], st => st
  | base, e :: rest, st =>
    let f := e.name
    let filePath := pathJoin base f
    let relativeFilePath := pathRelative (pathJoin cwd blockDir) filePath
    if isTestFile f then
      walkFiles lang config cwd categoryName blockName blockDir base rest
        { st with hasTests := true, blockFiles := st.blockFiles ++ [relativeFilePath] }
    else
      match e with
      | .dir _ children =>
        if !config.allowSubdirectories then
          walkFiles lang config cwd categoryName blockName blockDir base rest
            { st with warnings := st.warnings ++ [.subdirectoryDisallowed (pathJoin blockDir f)] }
        else
          walkFiles lang config cwd categoryName blockName blockDir base rest
            (walkFiles lang config cwd categoryName blockName blockDir filePath children st)
      | .file _ =>
        if !lang.«matches» f then
          walkFiles lang config cwd categoryName blockName blockDir base rest
            { st with warnings := st.warnings ++ [.unsupportedFile filePath] }
        else
          let r := lang.resolve filePath true
          walkFiles lang config cwd categoryName blockName blockDir base rest
            { st with
              localDepsSet := r.localDeps.foldl
                (fun s dep => if dep = specOf categoryName blockName then s else addUniq dep s)
                st.localDepsSet
              depsSet := r.dependencies.foldl (fun s dep => addUniq dep s) st.depsSet
              devDepsSet := r.devDependencies.foldl (fun s dep => addUniq dep s) st.devDepsSet
              imports := r.imports.foldl (fun m kv => alSet kv.1 kv.2 m) st.imports
              blockFiles := st.blockFiles ++ [relativeFilePath] }
termination_by _ entries _ => sizeOf entries
decreasing_by all_goals (simp_wf <;> omega)

/-- The body of `buildBlocksDirectory`'s inner `for (const file of files)`
loop, processing the children of one category directory in order.
`fileNames` is the full sibling name list (`fs.readdirSync(categoryDir)`),
used for the co-existing-test-file lookup. -/
def buildCategoryBlocks (lang : LangModel) (config : RegistryConfig)
    (cwd categoryDir categoryName : String) (listCategory : Bool)
    (fileNames : List String) :
    List FsEntry → List Block × List BuildWarning
  | [] => ([], [])
  | .file file :: rest =>
    let restResult := buildCategoryBlocks lang config cwd categoryDir categoryName
      listCategory fileNames rest
    let blockDir := pathJoin categoryDir file
    if isTestFile file then restResult
    else
      let name := transformBlockName file
      let listBlock := shouldListBlock name config
      if !shouldIncludeBlock name config then restResult
      else if !lang.«matches» file then
        (restResult.1, BuildWarning.unsupportedFile blockDir :: restResult.2)
      else
        let testsPath := fileNames.find? (fun f =>
          (TEST_SUFFIXES.find? (fun suffix => f = name ++ suffix)).isSome)
        let r := lang.resolve blockDir false
        let block : Block :=
          { name := name
            directory := pathRelative cwd categoryDir
            category := categoryName
            tests := testsPath.isSome
            subdirectory := false
            list := if listCategory then listBlock else false
            files := [file] ++ testsPath.toList
            localDependencies := r.localDeps
            imports := r.imports
            dependencies := r.dependencies
            devDependencies := r.devDependencies }
        (block :: restResult.1, restResult.2)
  | .dir file children :: rest =>
    let restResult := buildCategoryBlocks lang config cwd categoryDir categoryName
      listCategory fileNames rest
    let blockDir := pathJoin categoryDir file
    let blockName := file
    let listBlock := shouldListBlock blockName config
    if !shouldIncludeBlock blockName config then restResult
    else
      let st := walkFiles lang config cwd categoryName blockName blockDir
        blockDir children emptyWalkSt
      let block : Block :=
        { name := blockName
          directory := pathRelative cwd blockDir
          category := categoryName
          tests := st.hasTests
          subdirectory := true
          list := if listCategory then listBlock else false
          files := st.blockFiles
          localDependencies := st.localDepsSet
          dependencies := st.depsSet
          devDependencies := st.devDepsSet
          imports := st.imports }
      (block :: restResult.1, st.warnings ++ restResult.2)

/-- `buildBlocksDirectory` from `build/index.ts`.  The root directory's
enumeration (`fs.readdirSync(blocksPath)`, fatal on I/O error) is the
external input `rootEntries`; `ignores` is the external `ignore` matcher.
Returns the built categories together with the accumulated warnings.
Note the source appends a category even when it ends up with zero blocks. -/
def buildBlocksDirectory (lang : LangModel) (config : RegistryConfig)
    (ignores : String → Bool) (blocksPath cwd : String) :
    List FsEntry → List Category × List BuildWarning
  | [] => ([], [])
  | .file _ :: rest => buildBlocksDirectory lang config ignores blocksPath cwd rest
  | .dir categoryPath children :: rest =>
    let restResult := buildBlocksDirectory lang config ignores blocksPath cwd rest
    let categoryDir := pathJoin blocksPath categoryPath
    let dirName := pathRelative cwd categoryDir ++ "/"
    if ignores dirName then restResult
    else
      let categoryName := basename categoryPath
      if !shouldIncludeCategory categoryName config then restResult
      else
        let listCategory := shouldListCategory categoryName config
        let built := buildCategoryBlocks lang config cwd categoryDir categoryName
          listCategory (children.map FsEntry.name) children
        ({ name := categoryName, blocks := built.1 } :: restResult.1, built.2 ++ restResult.2)

/-- Modelled from the spec: `isDependedOn` lives in
`src/packages/cli/src/utils/build/check.ts`, which is not among the provided
sources (only its caller `pruneUnused` is).  Per §4.2 a block's specifier is
depended on when it "appears in the `localDependencies` of at least one
other surviving-candidate block anywhere in the full set (computed by a
whole-graph scan, not per-category)" — i.e. some block of the scanned
categories, other than the one carrying the specifier itself, lists it. -/
def isDependedOn (specifier : String) (categories : List Category) : Bool :=
  categories.any (fun c =>
    c.blocks.any (fun b =>
      specOf b.category b.name != specifier && b.localDependencies.contains specifier))

/-- `pruneUnused` from `build/index.ts`, transcribed loop-for-loop (note the
source's `prunedCount` is declared `const 0` and never incremented). -/
def pruneUnused (categories : List Category) : List Category × Nat :=
  let pruned := categories.foldl
    (fun acc category =>
      let catBlocks := category.blocks.foldl
        (fun cb block =>
          let specifier := specOf block.category block.name
          if !block.list && !isDependedOn specifier categories then cb
          else cb ++ [block])
        ([] : List Block)
      if catBlocks.length > 0 then acc ++ [{ name := category.name, blocks := catBlocks }]
      else acc)
    ([] : List Category)
  (pruned, 0)

/-- The claim's survival predicate: a block survives pruning when it is
listed or its specifier is depended on somewhere in the full input set. -/
def blockSurvives (categories : List Category) (b : Block) : Bool :=
  b.list || isDependedOn (specOf b.category b.name) categories

/-- The Pruning Filter as the spec states it (§4.2): an order-preserving
filter of each category's blocks by `blockSurvives` against the whole input,
dropping categories left with zero blocks. -/
def pruneSpec (categories : List Category) : List Category :=
  (categories.map (fun c =>
    { name := c.name, blocks := c.blocks.filter (blockSurvives categories) })).filter
    (fun c => !c.blocks.isEmpty)

/-- `InstalledBlock` from `blocks.ts`. -/
structure InstalledBlock where
  specifier : String
  path : String
  block : Block
deriving DecidableEq

/-- `getInstalled` from `blocks.ts`.  Modelled from the spec: the project's
path mapping (`resolvePaths` / `getPathForBlock` from `utils/config.ts`, not
among the provided sources) is the abstract base-directory function
`getPathForBlock`, and `fs.existsSync` is the abstract existence probe
`existsSync` — the filesystem is consulted only through it, never through
file contents.  `block.files[0]` is embedded as `headD ""` (the source would
fault on an empty `files`; built single-file blocks never have one). -/
def getInstalled (blocks : List (String × Block)) (getPathForBlock : Block → String)
    (existsSync : String → Bool) : List InstalledBlock :=
  match blocks with
  | [] => []
  | (_, block) :: rest =>
    let baseDir := getPathForBlock block
    let blockPath :=
      if block.subdirectory then pathJoin baseDir block.name
      else pathJoin baseDir (block.files.headD "")
    let restResult := getInstalled rest getPathForBlock existsSync
    if existsSync blockPath then
      { specifier := specOf block.category block.name, path := blockPath, block := block }
        :: restResult
    else restResult

/-- The claim's target-path formula (§4.5): base directory joined with the
primary file for a single-file block, with the block's name for a
subdirectory block. -/
def installedTargetPath (getPathForBlock : Block → String) (b : Block) : String :=
  if b.subdirectory then pathJoin (getPathForBlock b) b.name
  else pathJoin (getPathForBlock b) (b.files.headD "")

/-- The Installed-Block Scanner as the spec states it: an order-preserving
filter of the known blocks by existence of the computed target path. -/
def getInstalledSpec (blocks : List (String × Block)) (getPathForBlock : Block → String)
    (existsSync : String → Bool) : List InstalledBlock :=
  (blocks.filter (fun p => existsSync (installedTargetPath getPathForBlock p.2))).map
    (fun p =>
      { specifier := specOf p.2.category p.2.name
        path := installedTargetPath getPathForBlock p.2
        block := p.2 })

/-- `RemoteBlock` from `registry-providers` (`Block` plus the owning
registry's identity, flattened to its url). -/
structure RemoteBlock extends Block where
  sourceRepo : String
deriving DecidableEq

/-- `InstallingBlock` from `blocks.ts`. -/
structure InstallingBlock where
  name : String
  subDependency : Bool
  block : RemoteBlock
deriving DecidableEq

/-- The two distinct `Err` sites of `resolveTree`, keyed by the offending
specifier exactly as the source's messages are: the missing-registry
message at the bare-specifier branch, and the
`Invalid block! X does not exist!` message reached whenever lookup fails. -/
inductive ResolveError where
  | noRepositoryConfigured (specifier : String)
  | blockNotFound (specifier : String)
deriving DecidableEq

/-- Result of a registry provider's `parse(specifier, ‹fullyQualified: true›)`. -/
structure ParsedRef where
  url : String
  specifier : String

/-- The external Registry Provider collaborator, restricted to the `parse`
capability `resolveTree` uses (always called fully qualified). -/
structure Provider where
  parse : String → ParsedRef

/-- `RegistryProviderState`: a registry base location bound to its provider. -/
structure RegistryProviderState where
  url : String
  provider : Provider

/-- The read-only context of one `resolveTree` run: the known remote blocks
keyed by `url.join(registryUrl, specifier)`, the configured registry states,
and the external `registry.selectProvider` prefix dispatcher. -/
structure ResolveCtx where
  blocksMap : List (String × RemoteBlock)
  repoPaths : List RegistryProviderState
  selectProvider : String → Option Provider

/-- Modelled from the spec: `url.join` from `utils/blocks/ts/url` (not among
the provided sources) joins specifier segments with a slash. -/
def urlJoin (a b : String) : String :=
  a ++ "/" ++ b

/-- The bare-specifier probe loop of `resolveTree` ("check every repo for
the block and return the first block found"). -/
def findInRepos (ctx : ResolveCtx) (blockSpecifier : String) :
    List RegistryProviderState → Option RemoteBlock
  | [] => none
  | providerState :: rest =>
    let parsed := providerState.provider.parse (urlJoin providerState.url blockSpecifier)
    match alGet (urlJoin parsed.url parsed.specifier) ctx.blocksMap with
    | some tempBlock => some tempBlock
    | none => findInRepos ctx blockSpecifier rest

/-- Resolution of one specifier to a `RemoteBlock` (lines 27–70 of
`blocks.ts`): provider-prefixed specifiers are parsed directly; bare ones
need at least one configured registry and are probed registry by registry;
any lookup miss falls through to the `Invalid block!` error. -/
def resolveSpec (ctx : ResolveCtx) (blockSpecifier : String) :
    Except ResolveError RemoteBlock :=
  match ctx.selectProvider blockSpecifier with
  | none =>
    if ctx.repoPaths.isEmpty then .error (.noRepositoryConfigured blockSpecifier)
    else
      match findInRepos ctx blockSpecifier ctx.repoPaths with
      | some block => .ok block
      | none => .error (.blockNotFound blockSpecifier)
  | some provider =>
    let parsed := provider.parse blockSpecifier
    match alGet (urlJoin parsed.url parsed.specifier) ctx.blocksMap with
    | some block => .ok block
    | none => .error (.blockNotFound blockSpecifier)

/-- The recursive core of `resolveTree`, with explicit fuel: `none` means
the fuel ran out, so a result of `none` at *every* fuel is exactly a
non-terminating run of the source.  `installed` and `blocks` are the two
insertion-ordered maps of the source; the recursive call for a block's
`localDependencies` starts a fresh batch and passes the current batch as
`installed`, exactly as `resolveTree` passes `blocks` — and, like the
source, it does not pass its own `installed` along. -/
def resolveTreeGo (ctx : ResolveCtx) :
    Nat → List String → List (String × InstallingBlock) →
    List (String × InstallingBlock) →
    Option (Except ResolveError (List (String × InstallingBlock)))
  | 0, _, _, _ => none
  | _ + 1, [], _, blocks => some (.ok blocks)
  | n + 1, blockSpecifier :: rest, installed, blocks =>
    match resolveSpec ctx blockSpecifier with
    | .error e => some (.error e)
    | .ok block =>
      let specifier := specOf block.category block.name
      let blocks1 := alSet specifier
        { name := block.name, subDependency := false, block := block } blocks
      if block.localDependencies.isEmpty then
        resolveTreeGo ctx n rest installed blocks1
      else
        match resolveTreeGo ctx n
          (block.localDependencies.filter
            (fun dep => !alHas dep blocks1 && !alHas dep installed))
          blocks1 [] with
        | none => none
        | some (.error e) => some (.error e)
        | some (.ok subDeps) =>
          resolveTreeGo ctx n rest installed
            (subDeps.foldl
              (fun m kv => alSet (specOf kv.2.block.category kv.2.block.name) kv.2 m)
              blocks1)

/-- `resolveTree` from `blocks.ts` under a fuel bound:
`array.fromMap(blocks, (_, val) => val)` is the batch's values in insertion
order. -/
def resolveTree (ctx : ResolveCtx) (fuel : Nat) (blockSpecifiers : List String)
    (installed : List (String × InstallingBlock)) :
    Option (Except ResolveError (List InstallingBlock)) :=
  (resolveTreeGo ctx fuel blockSpecifiers installed []).map
    (fun r => r.map (fun m => m.map Prod.snd))

/-! Concrete fixtures used to evaluate the embedded code on small inputs. -/

/-- A remote block living in the registry `"repo"` with the given category,
name and local dependencies. -/
def mkRemoteBlock (c n : String) (deps : List String) : RemoteBlock :=
  { name := n, directory := "", category := c, tests := false, subdirectory := false
    list := true, files := [], localDependencies := deps, dependencies := []
    devDependencies := [], imports := [], sourceRepo := "repo" }

/-- A provider for the registry `"repo"`: parsing a fully qualified
`repo/<specifier>` yields the registry url and the bare specifier back. -/
def repoProvider : Provider :=
  { parse := fun s => { url := "repo", specifier := s.drop 5 } }

def repoState : RegistryProviderState :=
  { url := "repo", provider := repoProvider }

/-- A three-block local-dependency cycle `cat/A → cat/B → cat/C → cat/A`
hosted in one configured registry; all specifiers are bare. -/
def cycleCtx : ResolveCtx :=
  { blocksMap :=
      [(urlJoin "repo" "cat/A", mkRemoteBlock "cat" "A" ["cat/B"])
      , (urlJoin "repo" "cat/B", mkRemoteBlock "cat" "B" ["cat/C"])
      , (urlJoin "repo" "cat/C", mkRemoteBlock "cat" "C" ["cat/A"])]
    repoPaths := [repoState]
    selectProvider := fun _ => none }

/-- A two-block chain `cat/A → cat/B` (no cycle) in one registry. -/
def chainCtx : ResolveCtx :=
  { blocksMap :=
      [(urlJoin "repo" "cat/A", mkRemoteBlock "cat" "A" ["cat/B"])
      , (urlJoin "repo" "cat/B", mkRemoteBlock "cat" "B" [])]
    repoPaths := [repoState]
    selectProvider := fun _ => none }

/-- A two-block cycle `cat/A ↔ cat/B` in one registry. -/
def twoCycleCtx : ResolveCtx :=
  { blocksMap :=
      [(urlJoin "repo" "cat/A", mkRemoteBlock "cat" "A" ["cat/B"])
      , (urlJoin "repo" "cat/B", mkRemoteBlock "cat" "B" ["cat/A"])]
    repoPaths := [repoState]
    selectProvider := fun _ => none }

/-- A context with zero configured registries whose `selectProvider`
recognizes the `github/` prefix. -/
def noRepoCtx : ResolveCtx :=
  { blocksMap := []
    repoPaths := []
    selectProvider := fun s =>
      if s = "github/x" then some { parse := fun q => { url := "github", specifier := q.drop 7 } }
      else none }

/-- A registry configuration with no include/exclude/list rules. -/
def openConfig (allowSubdirectories : Bool) : RegistryConfig :=
  { includeBlocks := [], excludeBlocks := [], listBlocks := [], doNotListBlocks := []
    includeCategories := [], excludeCategories := [], listCategories := []
    doNotListCategories := [], excludeDeps := [], dirs := []
    allowSubdirectories := allowSubdirectories }

/-- A language model matching every file and reporting, for every file, the
fixed local-dependency list `deps` (and nothing else). -/
def constLang (deps : List String) : LangModel :=
  { «matches» := fun _ => true
    resolve := fun _ _ =>
      { dependencies := [], devDependencies := [], localDeps := deps, imports := [] } }

/-! Helper lemmas for the resolver. -/

instance {ε α : Type} [DecidableEq ε] [DecidableEq α] : DecidableEq (Except ε α) := fun a b =>
  match a, b with
  | .error x, .error y =>
    if h : x = y then isTrue (h ▸ rfl) else isFalse (fun k => h (Except.error.inj k))
  | .ok x, .ok y =>
    if h : x = y then isTrue (h ▸ rfl) else isFalse (fun k => h (Except.ok.inj k))
  | .error _, .ok _ => isFalse (fun k => Except.noConfusion k)
  | .ok _, .error _ => isFalse (fun k => Except.noConfusion k)

def cycIbA : InstallingBlock :=
  { name := "A", subDependency := false, block := mkRemoteBlock "cat" "A" ["cat/B"] }

def cycIbB : InstallingBlock :=
  { name := "B", subDependency := false, block := mkRemoteBlock "cat" "B" ["cat/C"] }

def cycIbC : InstallingBlock :=
  { name := "C", subDependency := false, block := mkRemoteBlock "cat" "C" ["cat/A"] }

lemma cyc_step_B (n : Nat)
    (h : resolveTreeGo cycleCtx n ["cat/C"] [("cat/B", cycIbB)] [] = none) :
    resolveTreeGo cycleCtx (n + 1) ["cat/B"] [("cat/A", cycIbA)] [] = none := by
  have e : resolveTreeGo cycleCtx (n + 1) ["cat/B"] [("cat/A", cycIbA)] [] =
      match resolveTreeGo cycleCtx n ["cat/C"] [("cat/B", cycIbB)] [] with
      | none => none
      | some (.error er) => some (.error er)
      | some (.ok subDeps) =>
        resolveTreeGo cycleCtx n [] [("cat/A", cycIbA)]
          (subDeps.foldl
            (fun m kv => alSet (specOf kv.2.block.category kv.2.block.name) kv.2 m)
            [("cat/B", cycIbB)]) := rfl
  rw [e, h]

lemma cyc_step_C (n : Nat)
    (h : resolveTreeGo cycleCtx n ["cat/A"] [("cat/C", cycIbC)] [] = none) :
    resolveTreeGo cycleCtx (n + 1) ["cat/C"] [("cat/B", cycIbB)] [] = none := by
  have e : resolveTreeGo cycleCtx (n + 1) ["cat/C"] [("cat/B", cycIbB)] [] =
      match resolveTreeGo cycleCtx n ["cat/A"] [("cat/C", cycIbC)] [] with
      | none => none
      | some (.error er) => some (.error er)
      | some (.ok subDeps) =>
        resolveTreeGo cycleCtx n [] [("cat/B", cycIbB)]
          (subDeps.foldl
            (fun m kv => alSet (specOf kv.2.block.category kv.2.block.name) kv.2 m)
            [("cat/C", cycIbC)]) := rfl
  rw [e, h]

lemma cyc_step_A (n : Nat)
    (h : resolveTreeGo cycleCtx n ["cat/B"] [("cat/A", cycIbA)] [] = none) :
    resolveTreeGo cycleCtx (n + 1) ["cat/A"] [("cat/C", cycIbC)] [] = none := by
  have e : resolveTreeGo cycleCtx (n + 1) ["cat/A"] [("cat/C", cycIbC)] [] =
      match resolveTreeGo cycleCtx n ["cat/B"] [("cat/A", cycIbA)] [] with
      | none => none
      | some (.error er) => some (.error er)
      | some (.ok subDeps) =>
        resolveTreeGo cycleCtx n [] [("cat/C", cycIbC)]
          (subDeps.foldl
            (fun m kv => alSet (specOf kv.2.block.category kv.2.block.name) kv.2 m)
            [("cat/A", cycIbA)]) := rfl
  rw [e, h]

/-- The three states the diverging run cycles through: resolving one block of
the cycle with only its predecessor recorded as installed. -/
lemma cycle_go_none : ∀ n : Nat,
    resolveTreeGo cycleCtx n ["cat/B"] [("cat/A", cycIbA)] [] = none ∧
    resolveTreeGo cycleCtx n ["cat/C"] [("cat/B", cycIbB)] [] = none ∧
    resolveTreeGo cycleCtx n ["cat/A"] [("cat/C", cycIbC)] [] = none := by
  intro n
  induction n with
  | zero => exact ⟨rfl, rfl, rfl⟩
  | succ n ih => exact ⟨cyc_step_B n ih.2.1, cyc_step_C n ih.2.2, cyc_step_A n ih.1⟩

/-- C1: for the three-block local-dependency cycle `cat/A → cat/B → cat/C → cat/A`
with one configured registry, requesting `cat/A` never completes: the run is
out of fuel at every fuel bound, i.e. the source recursion does not
terminate.  (Recursive calls receive only the current batch as `installed`,
so at depth three the exclusion set no longer contains `cat/A` and the cycle
re-enters the same state forever.) -/
theorem resolveTree_three_cycle_diverges :
    ∀ fuel : Nat, resolveTree cycleCtx fuel ["cat/A"] [] = none := by
  intro fuel
  cases fuel with
  | zero => rfl
  | succ n =>
    have e : resolveTreeGo cycleCtx (n + 1) ["cat/A"] [] [] =
        match resolveTreeGo cycleCtx n ["cat/B"] [("cat/A", cycIbA)] [] with
        | none => none
        | some (.error er) => some (.error er)
        | some (.ok subDeps) =>
          resolveTreeGo cycleCtx n [] []
            (subDeps.foldl
              (fun m kv => alSet (specOf kv.2.block.category kv.2.block.name) kv.2 m)
              [("cat/A", cycIbA)]) := rfl
    show (resolveTreeGo cycleCtx (n + 1) ["cat/A"] [] []).map _ = none
    rw [e, (cycle_go_none n).1]
    rfl

/-- C2: evaluating the resolver on the chain `cat/A → cat/B` (requesting only
`cat/A`) returns the transitively pulled-in `cat/B`, but with
`subDependency = false`: the only site constructing an `InstallingBlock`
hard-codes `subDependency: false`, so nothing is ever tagged as a
sub-dependency, contradicting the claimed tagging. -/
theorem resolveTree_chain_subDependency_false :
    resolveTree chainCtx 3 ["cat/A"] [] =
      some (.ok
        [{ name := "A", subDependency := false, block := mkRemoteBlock "cat" "A" ["cat/B"] }
        , { name := "B", subDependency := false, block := mkRemoteBlock "cat" "B" [] }])
      ∧ "cat/B" ∉ ["cat/A"] := by
  exact ⟨by decide, by decide⟩

lemma findInRepos_eq_none (ctx : ResolveCtx) (s : String) :
    ∀ l : List RegistryProviderState,
      (∀ ps ∈ l,
        alGet (urlJoin (ps.provider.parse (urlJoin ps.url s)).url
          (ps.provider.parse (urlJoin ps.url s)).specifier) ctx.blocksMap = none) →
      findInRepos ctx s l = none := by
  intro l
  induction l with
  | nil => intro _; rfl
  | cons ps rest ih =>
    intro h
    have hps := h ps (List.mem_cons_self ps rest)
    have hrest := ih (fun q hq => h q (List.mem_cons_of_mem ps hq))
    simp only [findInRepos, hps, hrest]

/-- C6 (amended): for a call whose first specifier is bare (no recognized
provider prefix): with zero configured registries the whole call fails with
the no-repository-configured error; with registries configured but no
registry's parse-and-lookup finding the block, the whole call fails with the
block-not-found error.  In both cases the failure is the entire result — no
partial install plan is returned. -/
theorem resolveTree_bare_first_spec (ctx : ResolveCtx) (fuel : Nat) (s : String)
    (rest : List String) (installed : List (String × InstallingBlock))
    (hbare : ctx.selectProvider s = none) (hfuel : 0 < fuel) :
    (ctx.repoPaths = [] →
      resolveTree ctx fuel (s :: rest) installed =
        some (.error (.noRepositoryConfigured s)))
    ∧ (ctx.repoPaths ≠ [] →
      (∀ ps ∈ ctx.repoPaths,
        alGet (urlJoin (ps.provider.parse (urlJoin ps.url s)).url
          (ps.provider.parse (urlJoin ps.url s)).specifier) ctx.blocksMap = none) →
      resolveTree ctx fuel (s :: rest) installed =
        some (.error (.blockNotFound s))) := by
  obtain ⟨n, rfl⟩ : ∃ n, fuel = n + 1 := by
    cases fuel with
    | zero => exact absurd hfuel (by simp)
    | succ n => exact ⟨n, rfl⟩
  constructor
  · intro hempty
    have hspec : resolveSpec ctx s = .error (.noRepositoryConfigured s) := by
      simp [resolveSpec, hbare, hempty]
    simp [resolveTree, resolveTreeGo, hspec, Except.map]
  · intro hne hmiss
    have hfind : findInRepos ctx s ctx.repoPaths = none :=
      findInRepos_eq_none ctx s ctx.repoPaths hmiss
    have hspec : resolveSpec ctx s = .error (.blockNotFound s) := by
      simp [resolveSpec, hbare, hfind, List.isEmpty_iff, hne]
    simp [resolveTree, resolveTreeGo, hspec, Except.map]

/-- Witness for C6 (amended): requesting the bare specifier `bare` with zero
configured registries fails with the no-repository-configured error. -/
theorem resolveTree_bare_first_spec_witness :
    resolveTree noRepoCtx 1 ["bare"] [] =
      some (.error (.noRepositoryConfigured "bare")) :=
  (resolveTree_bare_first_spec noRepoCtx 1 "bare" [] [] rfl (by decide)).1 rfl

/-- C6 (counterexample): a call *containing* a bare specifier, made with zero
configured registries, need not return the no-repository-configured error:
if an earlier provider-prefixed specifier fails its lookup first, the call
returns the block-not-found error for that specifier instead. -/
theorem resolveTree_bare_not_always_noRepo :
    noRepoCtx.repoPaths = [] ∧ noRepoCtx.selectProvider "bare" = none ∧
    resolveTree noRepoCtx 5 ["github/x", "bare"] [] =
      some (.error (.blockNotFound "github/x")) ∧
    ∀ s : String,
      some (Except.error (ResolveError.blockNotFound "github/x")) ≠
        (some (.error (.noRepositoryConfigured s)) :
          Option (Except ResolveError (List InstallingBlock))) := by
  refine ⟨rfl, rfl, by decide, ?_⟩
  intro s h
  simp at h

/-! Helper lemmas for the builder. -/

lemma buildCategoryBlocks_list_false (lang : LangModel) (config : RegistryConfig)
    (cwd categoryDir categoryName : String) (fileNames : List String) :
    ∀ entries : List FsEntry,
      ∀ b ∈ (buildCategoryBlocks lang config cwd categoryDir categoryName false
        fileNames entries).1, b.list = false := by
  intro entries
  induction entries with
  | nil => intro b hb; simp [buildCategoryBlocks] at hb
  | cons e rest ih =>
    intro b hb
    cases e with
    | file f =>
      simp only [buildCategoryBlocks] at hb
      split at hb
      · exact ih b hb
      · split at hb
        · exact ih b hb
        · split at hb
          · exact ih b hb
          · rcases List.mem_cons.mp hb with h | h
            · simp [h]
            · exact ih b h
    | dir d children =>
      simp only [buildCategoryBlocks] at hb
      split at hb
      · exact ih b hb
      · rcases List.mem_cons.mp hb with h | h
        · simp [h]
        · exact ih b h

/-- C10: every block built by `buildBlocksDirectory` in a category whose
name fails `shouldListCategory` has `list = false`, regardless of the
block-level listing configuration. -/
theorem buildBlocksDirectory_list_needs_category (lang : LangModel)
    (config : RegistryConfig) (ignores : String → Bool) (blocksPath cwd : String)
    (entries : List FsEntry) :
    ∀ c ∈ (buildBlocksDirectory lang config ignores blocksPath cwd entries).1,
      shouldListCategory c.name config = false → ∀ b ∈ c.blocks, b.list = false := by
  induction entries with
  | nil => intro c hc; simp [buildBlocksDirectory] at hc
  | cons e rest ih =>
    intro c hc hlist b hb
    cases e with
    | file f =>
      simp only [buildBlocksDirectory] at hc
      exact ih c hc hlist b hb
    | dir d children =>
      simp only [buildBlocksDirectory] at hc
      split at hc
      · exact ih c hc hlist b hb
      · split at hc
        · exact ih c hc hlist b hb
        · rcases List.mem_cons.mp hc with h | h
          · subst h
            simp only at hb hlist
            rw [hlist] at hb
            exact buildCategoryBlocks_list_false lang config cwd
              (pathJoin blocksPath d) (basename d) (children.map FsEntry.name)
              children b hb
          · exact ih c h hlist b hb

def cfgNoListCat : RegistryConfig :=
  { openConfig false with doNotListCategories := ["cat"] }

/-- Witness for C10: with `doNotListCategories = ["cat"]`, the block built
from `cat/a.ts` (whose block-level listing default is "yes") still carries
`list = false`. -/
theorem buildBlocksDirectory_list_needs_category_witness :
    ({ name := "a", directory := "root/cat", category := "cat", tests := false
       subdirectory := false, list := false, files := ["a.ts"]
       localDependencies := [], dependencies := [], devDependencies := []
       imports := [] } : Block).list = false :=
  buildBlocksDirectory_list_needs_category (constLang []) cfgNoListCat
    (fun _ => false) "root" "" [.dir "cat" [.file "a.ts"]]
    { name := "cat"
      blocks := [{ name := "a", directory := "root/cat", category := "cat"
                   tests := false, subdirectory := false, list := false
                   files := ["a.ts"], localDependencies := [], dependencies := []
                   devDependencies := [], imports := [] }] }
    (by decide) (by decide) _ (by decide)

lemma buildCategoryBlocks_files_nonempty (lang : LangModel) (config : RegistryConfig)
    (cwd categoryDir categoryName : String) (listCategory : Bool) (fileNames : List String) :
    ∀ entries : List FsEntry,
      ∀ b ∈ (buildCategoryBlocks lang config cwd categoryDir categoryName listCategory
        fileNames entries).1, b.subdirectory = false → b.files ≠ [] := by
  intro entries
  induction entries with
  | nil => intro b hb; simp [buildCategoryBlocks] at hb
  | cons e rest ih =>
    intro b hb hsub
    cases e with
    | file f =>
      simp only [buildCategoryBlocks] at hb
      split at hb
      · exact ih b hb hsub
      · split at hb
        · exact ih b hb hsub
        · split at hb
          · exact ih b hb hsub
          · rcases List.mem_cons.mp hb with h | h
            · simp [h]
            · exact ih b h hsub
    | dir d children =>
      simp only [buildCategoryBlocks] at hb
      split at hb
      · exact ih b hb hsub
      · rcases List.mem_cons.mp hb with h | h
        · rw [h] at hsub; simp at hsub
        · exact ih b h hsub

/-- C7 (amended): every *single-file* block produced by the builder has a
non-empty `files` sequence (its own source file is always the first entry);
subdirectory blocks carry whatever the walk aggregated, which can be empty. -/
theorem buildBlocksDirectory_single_file_files_nonempty (lang : LangModel)
    (config : RegistryConfig) (ignores : String → Bool) (blocksPath cwd : String)
    (entries : List FsEntry) :
    ∀ c ∈ (buildBlocksDirectory lang config ignores blocksPath cwd entries).1,
      ∀ b ∈ c.blocks, b.subdirectory = false → b.files ≠ [] := by
  induction entries with
  | nil => intro c hc; simp [buildBlocksDirectory] at hc
  | cons e rest ih =>
    intro c hc b hb hsub
    cases e with
    | file f =>
      simp only [buildBlocksDirectory] at hc
      exact ih c hc b hb hsub
    | dir d children =>
      simp only [buildBlocksDirectory] at hc
      split at hc
      · exact ih c hc b hb hsub
      · split at hc
        · exact ih c hc b hb hsub
        · rcases List.mem_cons.mp hc with h | h
          · subst h
            exact buildCategoryBlocks_files_nonempty lang config cwd
              (pathJoin blocksPath d) (basename d)
              (shouldListCategory (basename d) config) (children.map FsEntry.name)
              children b hb hsub
          · exact ih c h b hb hsub

/-- The block built from `cat/a.ts` by `constLang []` under `openConfig`. -/
def fileBlockA : Block :=
  { name := "a", directory := "root/cat", category := "cat", tests := false
    subdirectory := false, list := true, files := ["a.ts"], localDependencies := []
    dependencies := [], devDependencies := [], imports := [] }

/-- Witness for C7 (amended): the single-file block built from `cat/a.ts`
has non-empty `files`. -/
theorem buildBlocksDirectory_single_file_files_nonempty_witness :
    fileBlockA.files ≠ [] :=
  buildBlocksDirectory_single_file_files_nonempty (constLang []) (openConfig false)
    (fun _ => false) "root" "" [.dir "cat" [.file "a.ts"]]
    { name := "cat", blocks := [fileBlockA] } (by decide) fileBlockA (by decide) (by decide)

/-- The block built from the empty subdirectory `cat/empty`. -/
def emptySubdirBlock : Block :=
  { name := "empty", directory := "root/cat/empty", category := "cat", tests := false
    subdirectory := true, list := true, files := [], localDependencies := []
    dependencies := [], devDependencies := [], imports := [] }

lemma buildEmptySubdir_eq :
    buildBlocksDirectory (constLang []) (openConfig true) (fun _ => false) "root" ""
      [.dir "cat" [.dir "empty" []]] =
    ([{ name := "cat", blocks := [emptySubdirBlock] }], []) := by
  simp [buildBlocksDirectory, buildCategoryBlocks, walkFiles, emptyWalkSt, isTestFile,
    strEndsWith, TEST_SUFFIXES, openConfig, constLang, pathJoin, pathRelative, basename,
    FsEntry.name, shouldIncludeCategory, shouldListCategory, shouldIncludeBlock,
    shouldListBlock, emptySubdirBlock]

/-- C7 (counterexample): the block built for an *empty* subdirectory child
(`cat/empty/`, subdirectories allowed) has an empty `files` sequence, so
`files` is not non-empty for every block the builder produces. -/
theorem buildBlocksDirectory_empty_files_counterexample :
    ∃ c ∈ (buildBlocksDirectory (constLang []) (openConfig true) (fun _ => false) "root" ""
      [.dir "cat" [.dir "empty" []]]).1, ∃ b ∈ c.blocks, b.files = [] := by
  rw [show (buildBlocksDirectory (constLang []) (openConfig true) (fun _ => false) "root" ""
      [.dir "cat" [.dir "empty" []]]).1 = [{ name := "cat", blocks := [emptySubdirBlock] }]
    from congrArg Prod.fst buildEmptySubdir_eq]
  exact ⟨{ name := "cat", blocks := [emptySubdirBlock] }, by simp, emptySubdirBlock,
    by simp, rfl⟩

lemma not_mem_addUniq {x d : String} {l : List String} (h1 : x ∉ l) (h2 : x ≠ d) :
    x ∉ addUniq d l := by
  unfold addUniq
  split
  · exact h1
  · simp [h1, h2]

lemma not_mem_fold_localDeps (self : String) (deps : List String) :
    ∀ s : List String, self ∉ s →
      self ∉ deps.foldl (fun s dep => if dep = self then s else addUniq dep s) s := by
  induction deps with
  | nil => intro s hs; exact hs
  | cons d rest ih =>
    intro s hs
    simp only [List.foldl_cons]
    by_cases hd : d = self
    · simpa [hd] using ih s hs
    · have : self ∉ addUniq d s := not_mem_addUniq hs (fun k => hd k.symm)
      simpa [hd] using ih _ this

lemma walkFiles_no_self (lang : LangModel) (config : RegistryConfig)
    (cwd categoryName blockName blockDir : String) :
    ∀ (base : String) (entries : List FsEntry) (st : WalkSt),
      specOf categoryName blockName ∉ st.localDepsSet →
      specOf categoryName blockName ∉
        (walkFiles lang config cwd categoryName blockName blockDir base entries st).localDepsSet := by
  intro base entries st
  induction base, entries, st using walkFiles.induct lang config cwd categoryName blockName blockDir with
  | case1 base st => intro h; rw [walkFiles.eq_1]; exact h
  | case2 base e rest st f filePath relativeFilePath htest ih =>
    intro h
    cases e with
    | file n =>
      rw [walkFiles.eq_3, if_pos (show isTestFile (FsEntry.file n).name = true from htest)]
      exact ih h
    | dir n children =>
      rw [walkFiles.eq_2, if_pos (show isTestFile (FsEntry.dir n children).name = true from htest)]
      exact ih h
  | case3 base rest st d children hallow f htest ih =>
    intro h
    rw [walkFiles.eq_2,
      if_neg (show ¬isTestFile (FsEntry.dir d children).name = true from htest),
      if_pos (show (!config.allowSubdirectories) = true from hallow)]
    exact ih h
  | case4 base rest st d children hallow f filePath htest ihc ihc2 ih =>
    intro h
    rw [walkFiles.eq_2,
      if_neg (show ¬isTestFile (FsEntry.dir d children).name = true from htest),
      if_neg (show ¬(!config.allowSubdirectories) = true from hallow)]
    exact ih (ihc h)
  | case5 base rest st n f filePath htest hmatch ih =>
    intro h
    rw [walkFiles.eq_3,
      if_neg (show ¬isTestFile (FsEntry.file n).name = true from htest),
      if_pos (show (!lang.«matches» (FsEntry.file n).name) = true from hmatch)]
    exact ih h
  | case6 base rest st n f filePath relativeFilePath htest hmatch r ih =>
    intro h
    rw [walkFiles.eq_3,
      if_neg (show ¬isTestFile (FsEntry.file n).name = true from htest),
      if_neg (show ¬(!lang.«matches» (FsEntry.file n).name) = true from hmatch)]
    exact ih (not_mem_fold_localDeps _ _ _ h)

lemma buildCategoryBlocks_no_self (lang : LangModel) (config : RegistryConfig)
    (cwd categoryDir categoryName : String) (listCategory : Bool) (fileNames : List String) :
    ∀ entries : List FsEntry,
      ∀ b ∈ (buildCategoryBlocks lang config cwd categoryDir categoryName listCategory
        fileNames entries).1,
        b.subdirectory = true → specOf b.category b.name ∉ b.localDependencies := by
  intro entries
  induction entries with
  | nil => intro b hb; simp [buildCategoryBlocks] at hb
  | cons e rest ih =>
    intro b hb hsub
    cases e with
    | file f =>
      simp only [buildCategoryBlocks] at hb
      split at hb
      · exact ih b hb hsub
      · split at hb
        · exact ih b hb hsub
        · split at hb
          · exact ih b hb hsub
          · rcases List.mem_cons.mp hb with h | h
            · rw [h] at hsub; simp at hsub
            · exact ih b h hsub
    | dir d children =>
      simp only [buildCategoryBlocks] at hb
      split at hb
      · exact ih b hb hsub
      · rcases List.mem_cons.mp hb with h | h
        · subst h
          simp only
          exact walkFiles_no_self lang config cwd categoryName d (pathJoin categoryDir d)
            (pathJoin categoryDir d) children emptyWalkSt (by simp [emptyWalkSt])
        · exact ih b h hsub

/-- C3 (amended): a *subdirectory* block produced by the builder never lists
its own `category/name` specifier in `localDependencies` (the aggregation
walk filters the self-specifier), even when the language resolver reports
arbitrary specifiers including the self-specifier.  Single-file blocks take
the resolver's output verbatim, with no such filter. -/
theorem buildBlocksDirectory_subdir_no_self_dependency (lang : LangModel)
    (config : RegistryConfig) (ignores : String → Bool) (blocksPath cwd : String)
    (entries : List FsEntry) :
    ∀ c ∈ (buildBlocksDirectory lang config ignores blocksPath cwd entries).1,
      ∀ b ∈ c.blocks, b.subdirectory = true →
        specOf b.category b.name ∉ b.localDependencies := by
  induction entries with
  | nil => intro c hc; simp [buildBlocksDirectory] at hc
  | cons e rest ih =>
    intro c hc b hb hsub
    cases e with
    | file f =>
      simp only [buildBlocksDirectory] at hc
      exact ih c hc b hb hsub
    | dir d children =>
      simp only [buildBlocksDirectory] at hc
      split at hc
      · exact ih c hc b hb hsub
      · split at hc
        · exact ih c hc b hb hsub
        · rcases List.mem_cons.mp hc with h | h
          · subst h
            exact buildCategoryBlocks_no_self lang config cwd
              (pathJoin blocksPath d) (basename d)
              (shouldListCategory (basename d) config) (children.map FsEntry.name)
              children b hb hsub
          · exact ih c h b hb hsub

/-- The block built from the subdirectory `cat/d` containing `f.ts` when the
resolver reports the self-specifier `cat/d` for every file: the walk filters
it out. -/
def subdirBlockD : Block :=
  { name := "d", directory := "root/cat/d", category := "cat", tests := false
    subdirectory := true, list := true, files := ["f.ts"], localDependencies := []
    dependencies := [], devDependencies := [], imports := [] }

lemma buildSubdirSelf_eq :
    buildBlocksDirectory (constLang ["cat/d"]) (openConfig true) (fun _ => false) "root" ""
      [.dir "cat" [.dir "d" [.file "f.ts"]]] =
    ([{ name := "cat", blocks := [subdirBlockD] }], []) := by
  simp [buildBlocksDirectory, buildCategoryBlocks, walkFiles, emptyWalkSt, isTestFile,
    strEndsWith, TEST_SUFFIXES, openConfig, constLang, pathJoin, pathRelative, basename,
    FsEntry.name, shouldIncludeCategory, shouldListCategory, shouldIncludeBlock,
    shouldListBlock, subdirBlockD, specOf, addUniq]
  decide

/-- Witness for C3 (amended): the subdirectory block `cat/d`, built while the
resolver reported the self-specifier `cat/d`, does not carry `cat/d` in its
`localDependencies`. -/
theorem buildBlocksDirectory_subdir_no_self_dependency_witness :
    specOf subdirBlockD.category subdirBlockD.name ∉ subdirBlockD.localDependencies :=
  buildBlocksDirectory_subdir_no_self_dependency (constLang ["cat/d"]) (openConfig true)
    (fun _ => false) "root" "" [.dir "cat" [.dir "d" [.file "f.ts"]]]
    { name := "cat", blocks := [subdirBlockD] }
    (by rw [buildSubdirSelf_eq]; simp) subdirBlockD (by simp) rfl

/-- C3 (counterexample): a *single-file* block keeps the resolver's output
unfiltered, so when the resolver reports the block's own specifier the block
lists itself in `localDependencies`: building `cat/a.ts` with a resolver
reporting `cat/a` yields a block whose own specifier is among its
`localDependencies`. -/
theorem buildBlocksDirectory_self_dependency_counterexample :
    ∃ c ∈ (buildBlocksDirectory (constLang ["cat/a"]) (openConfig false) (fun _ => false)
      "root" "" [.dir "cat" [.file "a.ts"]]).1,
      ∃ b ∈ c.blocks, specOf b.category b.name ∈ b.localDependencies := by
  decide

lemma walkFiles_warnings_mono (lang : LangModel) (config : RegistryConfig)
    (cwd categoryName blockName blockDir : String) :
    ∀ (base : String) (entries : List FsEntry) (st : WalkSt),
      st.warnings ⊆
        (walkFiles lang config cwd categoryName blockName blockDir base entries st).warnings := by
  intro base entries st
  induction base, entries, st using walkFiles.induct lang config cwd categoryName blockName blockDir
  case case1 =>
    rw [walkFiles.eq_1]
    exact fun w hw => hw
  case case2 =>
    rename_i e rest st f filePath relativeFilePath htest ih
    intro w hw
    cases e with
    | file n =>
      rw [walkFiles.eq_3, if_pos (show isTestFile (FsEntry.file n).name = true from htest)]
      exact ih hw
    | dir n children =>
      rw [walkFiles.eq_2, if_pos (show isTestFile (FsEntry.dir n children).name = true from htest)]
      exact ih hw
  case case3 =>
    rename_i d children hallow f htest ih
    intro w hw
    rw [walkFiles.eq_2,
      if_neg (show ¬isTestFile (FsEntry.dir d children).name = true from htest),
      if_pos (show (!config.allowSubdirectories) = true from hallow)]
    exact ih (List.mem_append_left _ hw)
  case case4 =>
    rename_i d children hallow f filePath htest ihc ihc2 ih
    intro w hw
    rw [walkFiles.eq_2,
      if_neg (show ¬isTestFile (FsEntry.dir d children).name = true from htest),
      if_neg (show ¬(!config.allowSubdirectories) = true from hallow)]
    exact ih (ihc hw)
  case case5 =>
    rename_i n f filePath htest hmatch ih
    intro w hw
    rw [walkFiles.eq_3,
      if_neg (show ¬isTestFile (FsEntry.file n).name = true from htest),
      if_pos (show (!lang.«matches» (FsEntry.file n).name) = true from hmatch)]
    exact ih (List.mem_append_left _ hw)
  case case6 =>
    rename_i n f filePath relativeFilePath htest hmatch r ih
    intro w hw
    rw [walkFiles.eq_3,
      if_neg (show ¬isTestFile (FsEntry.file n).name = true from htest),
      if_neg (show ¬(!lang.«matches» (FsEntry.file n).name) = true from hmatch)]
    exact ih hw

/-- With subdirectories disallowed the walk's block-relevant state is the
same as walking only the non-directory (or test-suffix-named) children:
nested directories contribute nothing to the aggregation. -/
lemma walkFiles_filter_core (lang : LangModel) (config : RegistryConfig)
    (cwd categoryName blockName blockDir : String)
    (hallow : config.allowSubdirectories = false) :
    ∀ (entries : List FsEntry) (base : String) (st st' : WalkSt), st.core = st'.core →
      (walkFiles lang config cwd categoryName blockName blockDir base entries st).core =
      (walkFiles lang config cwd categoryName blockName blockDir base
        (entries.filter (fun e => !e.isDir || isTestFile e.name)) st').core := by
  intro entries
  induction entries with
  | nil =>
    intro base st st' h
    simpa [walkFiles.eq_1, List.filter_nil] using h
  | cons e rest ih =>
    intro base st st' h
    simp only [WalkSt.core, Prod.mk.injEq] at h
    obtain ⟨h1, h2, h3, h4, h5, h6⟩ := h
    cases e with
    | file n =>
      rw [show (FsEntry.file n :: rest).filter (fun e => !e.isDir || isTestFile e.name) =
        FsEntry.file n :: rest.filter (fun e => !e.isDir || isTestFile e.name) by
          simp [List.filter_cons, FsEntry.isDir]]
      by_cases ht : isTestFile (FsEntry.file n).name = true
      · rw [walkFiles.eq_3, walkFiles.eq_3, if_pos ht, if_pos ht]
        exact ih base _ _ (by simp [WalkSt.core, h1, h2, h3, h4, h6])
      · by_cases hm : (!lang.«matches» (FsEntry.file n).name) = true
        · rw [walkFiles.eq_3, walkFiles.eq_3, if_neg ht, if_neg ht, if_pos hm, if_pos hm]
          exact ih base _ _ (by simp [WalkSt.core, h1, h2, h3, h4, h5, h6])
        · rw [walkFiles.eq_3, walkFiles.eq_3, if_neg ht, if_neg ht, if_neg hm, if_neg hm]
          exact ih base _ _ (by simp [WalkSt.core, h1, h2, h3, h4, h5, h6])
    | dir d children =>
      by_cases ht : isTestFile (FsEntry.dir d children).name = true
      · rw [show (FsEntry.dir d children :: rest).filter (fun e => !e.isDir || isTestFile e.name) =
          FsEntry.dir d children :: rest.filter (fun e => !e.isDir || isTestFile e.name) by
            simp [List.filter_cons, FsEntry.isDir, FsEntry.name] at ht ⊢
            exact ht]
        rw [walkFiles.eq_2, walkFiles.eq_2, if_pos ht, if_pos ht]
        exact ih base _ _ (by simp [WalkSt.core, h1, h2, h3, h4, h6])
      · rw [show (FsEntry.dir d children :: rest).filter (fun e => !e.isDir || isTestFile e.name) =
          rest.filter (fun e => !e.isDir || isTestFile e.name) by
            simp [List.filter_cons, FsEntry.isDir, FsEntry.name] at ht ⊢
            exact ht]
        rw [walkFiles.eq_2, if_neg ht,
          if_pos (show (!config.allowSubdirectories) = true by simp [hallow])]
        exact ih base _ st' (by simp [WalkSt.core, h1, h2, h3, h4, h5, h6])

/-- With subdirectories disallowed, every nested (non-test-suffix-named)
directory produces a `subdirectoryDisallowed` warning during the walk. -/
lemma walkFiles_disallowed_warning (lang : LangModel) (config : RegistryConfig)
    (cwd categoryName blockName blockDir : String)
    (hallow : config.allowSubdirectories = false) :
    ∀ (entries : List FsEntry) (base : String) (st : WalkSt),
      ∀ e ∈ entries, e.isDir = true → isTestFile e.name = false →
        BuildWarning.subdirectoryDisallowed (pathJoin blockDir e.name) ∈
          (walkFiles lang config cwd categoryName blockName blockDir base entries st).warnings := by
  intro entries
  induction entries with
  | nil => intro base st e he; simp at he
  | cons e0 rest ih =>
    intro base st e he hdir htest
    rcases List.mem_cons.mp he with rfl | hmem
    · -- the offending directory is the head entry
      cases e with
      | file n => simp [FsEntry.isDir] at hdir
      | dir d children =>
        rw [walkFiles.eq_2,
          if_neg (show ¬isTestFile (FsEntry.dir d children).name = true by simp [htest]),
          if_pos (show (!config.allowSubdirectories) = true by simp [hallow])]
        refine walkFiles_warnings_mono lang config cwd categoryName blockName blockDir
          base rest _ ?_
        simp
    · -- the offending directory is further down: step over the head entry
      cases e0 with
      | file n =>
        by_cases ht : isTestFile (FsEntry.file n).name = true
        · rw [walkFiles.eq_3, if_pos ht]; exact ih base _ e hmem hdir htest
        · by_cases hm : (!lang.«matches» (FsEntry.file n).name) = true
          · rw [walkFiles.eq_3, if_neg ht, if_pos hm]; exact ih base _ e hmem hdir htest
          · rw [walkFiles.eq_3, if_neg ht, if_neg hm]; exact ih base _ e hmem hdir htest
      | dir d children =>
        by_cases ht : isTestFile (FsEntry.dir d children).name = true
        · rw [walkFiles.eq_2, if_pos ht]; exact ih base _ e hmem hdir htest
        · rw [walkFiles.eq_2, if_neg ht,
            if_pos (show (!config.allowSubdirectories) = true by simp [hallow])]
          exact ih base _ e hmem hdir htest

/-- C8 (amended): `allowSubdirectories` gates only directories *nested
inside* a subdirectory block, not the block itself.  With the option
disallowed, a directory child `d` of a category directory still becomes a
block named `d` whose files and local dependencies aggregate exactly `d`'s
direct non-directory (or test-suffix-named) children, and every nested
non-test-named directory is skipped with a `subdirectoryDisallowed` warning
carried into the builder's warning channel. -/
theorem buildCategoryBlocks_subdirectories_disallowed (lang : LangModel)
    (config : RegistryConfig) (cwd categoryDir categoryName : String)
    (listCategory : Bool) (fileNames : List String) (d : String)
    (children rest : List FsEntry)
    (hallow : config.allowSubdirectories = false)
    (hinc : shouldIncludeBlock d config = true) :
    (∃ b ∈ (buildCategoryBlocks lang config cwd categoryDir categoryName listCategory
        fileNames (.dir d children :: rest)).1,
      b.name = d ∧ b.subdirectory = true ∧
      b.files = (walkFiles lang config cwd categoryName d (pathJoin categoryDir d)
        (pathJoin categoryDir d) (children.filter (fun e => !e.isDir || isTestFile e.name))
        emptyWalkSt).blockFiles ∧
      b.localDependencies = (walkFiles lang config cwd categoryName d (pathJoin categoryDir d)
        (pathJoin categoryDir d) (children.filter (fun e => !e.isDir || isTestFile e.name))
        emptyWalkSt).localDepsSet)
    ∧ ∀ e ∈ children, e.isDir = true → isTestFile e.name = false →
        BuildWarning.subdirectoryDisallowed (pathJoin (pathJoin categoryDir d) e.name) ∈
          (buildCategoryBlocks lang config cwd categoryDir categoryName listCategory fileNames
            (.dir d children :: rest)).2 := by
  have hcore := walkFiles_filter_core lang config cwd categoryName d (pathJoin categoryDir d)
    hallow children (pathJoin categoryDir d) emptyWalkSt emptyWalkSt rfl
  simp only [WalkSt.core, Prod.mk.injEq] at hcore
  obtain ⟨hc1, hc2, hc3, hc4, hc5, hc6⟩ := hcore
  have hunfold : buildCategoryBlocks lang config cwd categoryDir categoryName listCategory
      fileNames (.dir d children :: rest) =
      ({ name := d
         directory := pathRelative cwd (pathJoin categoryDir d)
         category := categoryName
         tests := (walkFiles lang config cwd categoryName d (pathJoin categoryDir d)
           (pathJoin categoryDir d) children emptyWalkSt).hasTests
         subdirectory := true
         list := if listCategory then shouldListBlock d config else false
         files := (walkFiles lang config cwd categoryName d (pathJoin categoryDir d)
           (pathJoin categoryDir d) children emptyWalkSt).blockFiles
         localDependencies := (walkFiles lang config cwd categoryName d (pathJoin categoryDir d)
           (pathJoin categoryDir d) children emptyWalkSt).localDepsSet
         dependencies := (walkFiles lang config cwd categoryName d (pathJoin categoryDir d)
           (pathJoin categoryDir d) children emptyWalkSt).depsSet
         devDependencies := (walkFiles lang config cwd categoryName d (pathJoin categoryDir d)
           (pathJoin categoryDir d) children emptyWalkSt).devDepsSet
         imports := (walkFiles lang config cwd categoryName d (pathJoin categoryDir d)
           (pathJoin categoryDir d) children emptyWalkSt).imports } ::
        (buildCategoryBlocks lang config cwd categoryDir categoryName listCategory
          fileNames rest).1,
       (walkFiles lang config cwd categoryName d (pathJoin categoryDir d)
         (pathJoin categoryDir d) children emptyWalkSt).warnings ++
        (buildCategoryBlocks lang config cwd categoryDir categoryName listCategory
          fileNames rest).2) := by
    simp only [buildCategoryBlocks]
    rw [if_neg (show ¬(!shouldIncludeBlock d config) = true by simp [hinc])]
  constructor
  · refine ⟨{ name := d
              directory := pathRelative cwd (pathJoin categoryDir d)
              category := categoryName
              tests := (walkFiles lang config cwd categoryName d (pathJoin categoryDir d)
                (pathJoin categoryDir d) children emptyWalkSt).hasTests
              subdirectory := true
              list := if listCategory then shouldListBlock d config else false
              files := (walkFiles lang config cwd categoryName d (pathJoin categoryDir d)
                (pathJoin categoryDir d) children emptyWalkSt).blockFiles
              localDependencies := (walkFiles lang config cwd categoryName d
                (pathJoin categoryDir d) (pathJoin categoryDir d) children emptyWalkSt).localDepsSet
              dependencies := (walkFiles lang config cwd categoryName d (pathJoin categoryDir d)
                (pathJoin categoryDir d) children emptyWalkSt).depsSet
              devDependencies := (walkFiles lang config cwd categoryName d (pathJoin categoryDir d)
                (pathJoin categoryDir d) children emptyWalkSt).devDepsSet
              imports := (walkFiles lang config cwd categoryName d (pathJoin categoryDir d)
                (pathJoin categoryDir d) children emptyWalkSt).imports },
      ?_, rfl, rfl, ?_, ?_⟩
    · rw [hunfold]
      exact List.mem_cons_self _ _
    · exact hc6
    · exact hc1
  · intro e he hdir htest
    rw [hunfold]
    exact List.mem_append_left _
      (walkFiles_disallowed_warning lang config cwd categoryName d (pathJoin categoryDir d)
        hallow children (pathJoin categoryDir d) emptyWalkSt e he hdir htest)

/-- Witness for C8 (amended): with `allowSubdirectories = false`, building
the category child `d` containing `nested/` and `f.ts` records a
`subdirectoryDisallowed` warning for the nested directory. -/
theorem buildCategoryBlocks_subdirectories_disallowed_witness :
    BuildWarning.subdirectoryDisallowed (pathJoin (pathJoin "root/cat" "d") "nested") ∈
      (buildCategoryBlocks (constLang []) (openConfig false) "" "root/cat" "cat" true ["d"]
        (.dir "d" [.dir "nested" [.file "g.ts"], .file "f.ts"] :: [])).2 :=
  (buildCategoryBlocks_subdirectories_disallowed (constLang []) (openConfig false) ""
    "root/cat" "cat" true ["d"] "d" [.dir "nested" [.file "g.ts"], .file "f.ts"] []
    rfl (by decide)).2
    (.dir "nested" [.file "g.ts"]) (List.mem_cons_self _ _) rfl (by decide)

lemma buildNoSubDirect_eq :
    buildBlocksDirectory (constLang []) (openConfig false) (fun _ => false) "root" ""
      [.dir "cat" [.dir "d" [.file "f.ts"]]] =
    ([{ name := "cat", blocks := [subdirBlockD] }], []) := by
  simp [buildBlocksDirectory, buildCategoryBlocks, walkFiles, emptyWalkSt, isTestFile,
    strEndsWith, TEST_SUFFIXES, openConfig, constLang, pathJoin, pathRelative, basename,
    FsEntry.name, shouldIncludeCategory, shouldListCategory, shouldIncludeBlock,
    shouldListBlock, subdirBlockD, specOf, addUniq]
  decide

/-- C8 (counterexample): with `allowSubdirectories = false`, the directory
child `cat/d` containing the plain file `f.ts` is *not* skipped: the build
emits no warning at all, and the block added for `d` aggregates the direct
file (its file list is non-empty), contradicting the claim that nothing is
included for the block and a warning is emitted. -/
theorem buildBlocksDirectory_disallowed_counterexample :
    (buildBlocksDirectory (constLang []) (openConfig false) (fun _ => false) "root" ""
      [.dir "cat" [.dir "d" [.file "f.ts"]]]).2 = [] ∧
    ∃ c ∈ (buildBlocksDirectory (constLang []) (openConfig false) (fun _ => false) "root" ""
      [.dir "cat" [.dir "d" [.file "f.ts"]]]).1,
      ∃ b ∈ c.blocks, b.name = "d" ∧ b.files ≠ [] := by
  refine ⟨congrArg Prod.snd buildNoSubDirect_eq, ?_⟩
  rw [show (buildBlocksDirectory (constLang []) (openConfig false) (fun _ => false) "root" ""
      [.dir "cat" [.dir "d" [.file "f.ts"]]]).1 = [{ name := "cat", blocks := [subdirBlockD] }]
    from congrArg Prod.fst buildNoSubDirect_eq]
  exact ⟨{ name := "cat", blocks := [subdirBlockD] }, by simp, subdirBlockD, by simp,
    rfl, by simp [subdirBlockD]⟩

/-! Helper lemmas for the pruning filter and installed-block scanner. -/

lemma prune_inner (cats : List Category) :
    ∀ (bl : List Block) (cb : List Block),
      bl.foldl (fun cb block =>
        let specifier := specOf block.category block.name
        if !block.list && !isDependedOn specifier cats then cb else cb ++ [block]) cb =
      cb ++ bl.filter (blockSurvives cats) := by
  intro bl
  induction bl with
  | nil => intro cb; simp
  | cons b rest ih =>
    intro cb
    simp only [List.foldl_cons, List.filter_cons]
    by_cases h : (!b.list && !isDependedOn (specOf b.category b.name) cats) = true
    · have hs : blockSurvives cats b = false := by
        simp only [Bool.and_eq_true, Bool.not_eq_true'] at h
        simp [blockSurvives, h.1, h.2]
      rw [if_pos h, hs]
      simpa using ih cb
    · have hs : blockSurvives cats b = true := by
        simp only [Bool.and_eq_true, not_and, Bool.not_eq_true', Bool.not_eq_false] at h
        rcases Bool.eq_false_or_eq_true b.list with hb | hb
        · simp [blockSurvives, hb]
        · simp [blockSurvives, hb, h hb]
      rw [if_neg h, hs]
      simp only [if_true]
      rw [ih (cb ++ [b])]
      simp

lemma prune_outer (cats : List Category) :
    ∀ (l : List Category) (acc : List Category),
      l.foldl (fun acc category =>
        let catBlocks := category.blocks.foldl (fun cb block =>
          let specifier := specOf block.category block.name
          if !block.list && !isDependedOn specifier cats then cb else cb ++ [block]) []
        if catBlocks.length > 0 then acc ++ [{ name := category.name, blocks := catBlocks }]
        else acc) acc =
      acc ++ (l.map (fun c =>
        { name := c.name, blocks := c.blocks.filter (blockSurvives cats) })).filter
        (fun c => !c.blocks.isEmpty) := by
  intro l
  induction l with
  | nil => intro acc; simp
  | cons c rest ih =>
    intro acc
    simp only [List.foldl_cons, List.map_cons, List.filter_cons]
    rw [show c.blocks.foldl (fun cb block =>
        let specifier := specOf block.category block.name
        if !block.list && !isDependedOn specifier cats then cb else cb ++ [block]) [] =
      c.blocks.filter (blockSurvives cats) by simpa using prune_inner cats c.blocks []]
    by_cases h : (c.blocks.filter (blockSurvives cats)).length > 0
    · have he : (c.blocks.filter (blockSurvives cats)).isEmpty = false := by
        cases hf : c.blocks.filter (blockSurvives cats) with
        | nil => rw [hf] at h; simp at h
        | cons x xs => simp [hf]
      rw [if_pos h, ih]
      simp [he, List.append_assoc]
    · have hnil : c.blocks.filter (blockSurvives cats) = [] := by
        cases hf : c.blocks.filter (blockSurvives cats) with
        | nil => rfl
        | cons x xs => rw [hf] at h; simp at h
      rw [if_neg h, hnil, if_neg (by simp), ih]

lemma pruneUnused_fst (cats : List Category) : (pruneUnused cats).1 = pruneSpec cats := by
  unfold pruneUnused pruneSpec
  simpa using prune_outer cats cats []

/-- C5: `pruneUnused` is exactly the spec's order-preserving filter — a
block survives iff it is listed or its specifier occurs in the
`localDependencies` of another candidate block anywhere in the full input
set (whole-graph scan), and categories left with zero surviving blocks are
dropped from the output. -/
theorem pruneUnused_matches_pruneSpec (cats : List Category) :
    (pruneUnused cats).1 = pruneSpec cats :=
  pruneUnused_fst cats

/-- C4 (amended): pruning is idempotent on inputs whose first-pass survivors
all still survive against the pruned set — in particular whenever every
surviving block is listed, or is depended on by another surviving block.  (In
general a second pass can prune more, because the dependency scan of the
first pass consults the *unpruned* input.) -/
theorem pruneUnused_idempotent_of_survivors (cats : List Category)
    (h : ∀ c ∈ (pruneUnused cats).1, ∀ b ∈ c.blocks,
      blockSurvives (pruneUnused cats).1 b = true) :
    (pruneUnused (pruneUnused cats).1).1 = (pruneUnused cats).1 := by
  rw [pruneUnused_fst]
  unfold pruneSpec
  have hmap : (pruneUnused cats).1.map (fun c =>
      { name := c.name, blocks := c.blocks.filter (blockSurvives (pruneUnused cats).1) }) =
      (pruneUnused cats).1 := by
    have hpt : ∀ c ∈ (pruneUnused cats).1,
        ({ name := c.name
           blocks := c.blocks.filter (blockSurvives (pruneUnused cats).1) } : Category) = c := by
      intro c hc
      have hf : c.blocks.filter (blockSurvives (pruneUnused cats).1) = c.blocks :=
        List.filter_eq_self.mpr (fun b hb => h c hc b hb)
      cases c
      simp only [hf]
    calc (pruneUnused cats).1.map (fun c =>
        { name := c.name, blocks := c.blocks.filter (blockSurvives (pruneUnused cats).1) })
        = (pruneUnused cats).1.map id := List.map_congr_left hpt
      _ = (pruneUnused cats).1 := List.map_id _
  rw [hmap]
  apply List.filter_eq_self.mpr
  intro c hc
  rw [pruneUnused_fst] at hc
  unfold pruneSpec at hc
  exact (List.mem_filter.mp hc).2

/-- A helper block for pruning fixtures. -/
def mkPlainBlock (c n : String) (listed : Bool) (deps : List String) : Block :=
  { name := n, directory := "", category := c, tests := false, subdirectory := false
    list := listed, files := ["x"], localDependencies := deps, dependencies := []
    devDependencies := [], imports := [] }

/-- Two unlisted blocks: `c/b` depends on `c/a`, nothing depends on `c/b`. -/
def pruneCatsEx : List Category :=
  [{ name := "c", blocks := [mkPlainBlock "c" "a" false [], mkPlainBlock "c" "b" false ["c/a"]] }]

/-- C4 (counterexample): pruning `pruneCatsEx` once keeps `c/a` (its
dependent `c/b` is in the scanned input even though `c/b` itself is pruned),
but pruning the result again removes `c/a` too — so `prune (prune x) ≠
prune x`. -/
theorem pruneUnused_not_idempotent :
    (pruneUnused (pruneUnused pruneCatsEx).1).1 ≠ (pruneUnused pruneCatsEx).1 := by
  decide

/-- An all-listed single-block input: pruning keeps everything. -/
def pruneCatsGood : List Category :=
  [{ name := "c", blocks := [mkPlainBlock "c" "a" true []] }]

/-- Witness for C4 (amended): on an all-listed input the hypothesis holds
and pruning twice equals pruning once. -/
theorem pruneUnused_idempotent_of_survivors_witness :
    (pruneUnused (pruneUnused pruneCatsGood).1).1 = (pruneUnused pruneCatsGood).1 :=
  pruneUnused_idempotent_of_survivors pruneCatsGood (by decide)

/-- C9: `getInstalled` is exactly the spec's filter — a known block is
reported installed iff its computed target path (base directory joined with
`files[0]` for a single-file block, with the block's name for a subdirectory
block) exists; the probe consults nothing but path existence, and the
relative order of blocks is preserved. -/
theorem getInstalled_matches_spec (blocks : List (String × Block))
    (getPathForBlock : Block → String) (existsSync : String → Bool) :
    getInstalled blocks getPathForBlock existsSync =
      getInstalledSpec blocks getPathForBlock existsSync := by
  induction blocks with
  | nil => rfl
  | cons p rest ih =>
    obtain ⟨k, block⟩ := p
    by_cases h : existsSync (installedTargetPath getPathForBlock block) = true
    · simp only [getInstalled, getInstalledSpec, List.filter_cons, installedTargetPath] at *
      rw [show (if block.subdirectory then pathJoin (getPathForBlock block) block.name
          else pathJoin (getPathForBlock block) (block.files.headD "")) =
        installedTargetPath getPathForBlock block from rfl] at *
      rw [if_pos h, if_pos h]
      simp only [List.map_cons]
      rw [ih]
      rfl
    · simp only [getInstalled, getInstalledSpec, List.filter_cons, installedTargetPath] at *
      rw [show (if block.subdirectory then pathJoin (getPathForBlock block) block.name
          else pathJoin (getPathForBlock block) (block.files.headD "")) =
        installedTargetPath getPathForBlock block from rfl] at *
      rw [if_neg h, if_neg h]
      exact ih

end Jsrepo
